import Mathlib

/-!
Shallow embedding of the multi-visa-calc program (src/src/main.rs).

Calendar dates are modelled as `Int` day numbers: `chrono::NaiveDate` is a
totally ordered type whose difference `(b - a).num_days()` is the signed day
count, which is exactly integer subtraction on day numbers.  Fallible Rust
functions returning `anyhow::Result` are modelled as `Except String`.
-/

/-- Embeds `struct DateInterval { a: NaiveDate, b: NaiveDate }`. -/
structure DateInterval where
  a : Int
  b : Int
deriving DecidableEq, Repr

/-- Embeds `DateInterval::new`: fails when the interval points are reversed. -/
def DateInterval.new (a b : Int) : Except String DateInterval :=
  if a > b then .error "End date is before the start date"
  else .ok { a := a, b := b }

/-- Embeds `DateInterval::abs_num_days`: `(self.b - self.a).num_days() as usize + 1`.
The cast `as usize` of the signed day difference is modelled by `Int.toNat`. -/
def DateInterval.abs_num_days (di : DateInterval) : Nat :=
  (di.b - di.a).toNat + 1

/-- Embeds `DateInterval::start_no_earlier` (the Rust method mutates in place;
here it returns the updated interval). -/
def DateInterval.start_no_earlier (di : DateInterval) (d : Int) : DateInterval :=
  if di.a < d ∧ d ≤ di.b then { di with a := d } else di

/-- Embeds `DateInterval::end_no_later`. -/
def DateInterval.end_no_later (di : DateInterval) (d : Int) : DateInterval :=
  if di.a ≤ d ∧ d < di.b then { di with b := d } else di

/-- Embeds `DateInterval::overlaps`: `self.a <= di.b && di.a <= self.b`. -/
def DateInterval.overlaps (di other : DateInterval) : Bool :=
  decide (di.a ≤ other.b ∧ other.a ≤ di.b)

/-- The clipping sequence applied in `DateIntervalVec::from_dates`:
`di.start_no_earlier(control_period.a); di.end_no_later(control_period.b)`. -/
def DateInterval.clip (di cp : DateInterval) : DateInterval :=
  (di.start_no_earlier cp.a).end_no_later cp.b

/-- Embeds `dates.iter().tuples()` from itertools: consecutive pairs, with any
leftover element (odd-length list) silently ignored. -/
def pairTuples : List Int → List (Int × Int)
  | x :: y :: rest => (x, y) :: pairTuples rest
  | _ => []

/-- Embeds the loop body of `DateIntervalVec::from_dates` over the paired
dates: each pair is validated with `DateInterval::new` (`?` aborts the whole
computation on the first reversed pair), and a validated interval is clipped
and kept exactly when it overlaps the control period. -/
def buildPairs (cp : DateInterval) : List (Int × Int) → Except String (List DateInterval)
  | [] => .ok []
  | (x, y) :: rest =>
    match DateInterval.new x y with
    | .error e => .error e
    | .ok di =>
      match buildPairs cp rest with
      | .error e => .error e
      | .ok tail =>
        if di.overlaps cp then .ok (di.clip cp :: tail) else .ok tail

/-- Embeds `struct DateIntervalVec(Vec<DateInterval>)`. -/
structure DateIntervalVec where
  intervals : List DateInterval
deriving DecidableEq, Repr

/-- Embeds `DateIntervalVec::from_dates`. -/
def DateIntervalVec.from_dates (dates : List Int) (cp : DateInterval) :
    Except String DateIntervalVec :=
  match buildPairs cp (pairTuples dates) with
  | .error e => .error e
  | .ok l => .ok ⟨l⟩

/-- Embeds `DateIntervalVec::num_spent_days`: the sum of `abs_num_days` over
the kept intervals. -/
def DateIntervalVec.num_spent_days (v : DateIntervalVec) : Nat :=
  (v.intervals.map DateInterval.abs_num_days).sum

/-- Embeds the relevant part of `struct Cli`: the reference end date (already
resolved to a day number), the `period` option and the `allowed` option. -/
structure Cli where
  endDate : Int
  period : Nat
  allowed : Nat
deriving DecidableEq, Repr

/-- Embeds the control-period construction in `main`:
`let control_period = Days::new(180); let start_date = end_date - control_period;
let control_period = DateInterval::new(start_date, end_date)?;`.
Note the source constructs `Days::new(180)` with the literal constant and never
reads `cli.period`. -/
def main_control_period (cli : Cli) : Except String DateInterval :=
  DateInterval.new (cli.endDate - 180) cli.endDate

/-- Embeds the verdict selection in `main`:
`if num_spent_days > cli.allowed { "exceed" } else { "are within" }`. -/
def verdict (num_spent_days allowed : Nat) : String :=
  if num_spent_days > allowed then "exceed" else "are within"

/-- The `overlaps` test, propositionally. -/
theorem overlaps_iff (di cp : DateInterval) :
    di.overlaps cp = true ↔ di.a ≤ cp.b ∧ cp.a ≤ di.b := by
  simp [DateInterval.overlaps]

/-- C1: the claim says an odd-length normalized date list makes the build
fail; the code instead succeeds, silently dropping the trailing unpaired
date.  Evaluation at the failing input: the single date 100 inside the
window `[0, 180]` yields an empty interval collection rather than an error. -/
theorem from_dates_odd_singleton_ok :
    DateIntervalVec.from_dates [100] ⟨0, 180⟩ = .ok ⟨[]⟩ := rfl

/-- C2: the claim says the control window is `[end - period, end]`; the code
builds `[end - 180, end]` regardless of the `period` option.  Evaluation at
the failing input `period = 90`, `end = 0`: the window is `[-180, 0]`, not
`[0 - 90, 0]`. -/
theorem main_ignores_period_option :
    main_control_period ⟨0, 90, 90⟩ = .ok ⟨-180, 0⟩ ∧
      (DateInterval.mk (-180) 0) ≠ ⟨0 - 90, 0⟩ := by
  constructor
  · simp [main_control_period, DateInterval.new]
  · decide

/-- C7: `DateInterval::new` fails iff the dates are reversed (`a > b`), and
equal dates yield a valid one-day interval. -/
theorem interval_new_fails_iff_reversed (a b : Int) :
    ((∃ e, DateInterval.new a b = .error e) ↔ b < a) ∧
      DateInterval.new a a = .ok ⟨a, a⟩ ∧
      DateInterval.abs_num_days ⟨a, a⟩ = 1 := by
  refine ⟨?_, ?_, ?_⟩
  · unfold DateInterval.new
    split_ifs with h
    · simpa using h
    · simpa using h
  · simp [DateInterval.new]
  · simp [DateInterval.abs_num_days]

/-- C8: for a valid interval `[a, b]`, the inclusive length is
`(b - a) + 1` and is at least 1. -/
theorem abs_num_days_formula (di : DateInterval) (h : di.a ≤ di.b) :
    (di.abs_num_days : Int) = di.b - di.a + 1 ∧ 1 ≤ di.abs_num_days := by
  unfold DateInterval.abs_num_days
  constructor
  · push_cast
    omega
  · omega

/-- Witness for `abs_num_days_formula` at the interval `[0, 2]`. -/
theorem abs_num_days_formula_witness :
    ((DateInterval.mk 0 2).abs_num_days : Int) = (DateInterval.mk 0 2).b - (DateInterval.mk 0 2).a + 1 ∧
      1 ≤ (DateInterval.mk 0 2).abs_num_days :=
  abs_num_days_formula ⟨0, 2⟩ (by decide)

/-- C9: the verdict is `exceed` iff the spent-day total strictly exceeds the
allowance; a total exactly equal to the allowance is within. -/
theorem verdict_exceeds_iff (total allowed : Nat) :
    (verdict total allowed = "exceed" ↔ allowed < total) ∧
      verdict allowed allowed = "are within" := by
  constructor
  · unfold verdict
    split_ifs with h
    · simpa using h
    · simpa using h
  · simp [verdict]

/-- C10: the empty date list builds an empty interval collection, a total of
0 spent days, and a "within" verdict at every allowance. -/
theorem empty_dates_within (cp : DateInterval) (allowed : Nat) :
    DateIntervalVec.from_dates [] cp = .ok ⟨[]⟩ ∧
      DateIntervalVec.num_spent_days ⟨[]⟩ = 0 ∧
      verdict (DateIntervalVec.num_spent_days ⟨[]⟩) allowed = "are within" := by
  refine ⟨rfl, rfl, ?_⟩
  simp [DateIntervalVec.num_spent_days, verdict]

/-- Inversion for a successful `DateInterval.new`. -/
theorem new_ok (x y : Int) (hxy : x ≤ y) : DateInterval.new x y = .ok ⟨x, y⟩ := by
  unfold DateInterval.new
  rw [if_neg (by omega)]

/-- Evaluation of a failing `DateInterval.new`. -/
theorem new_error (x y : Int) (hyx : y < x) :
    DateInterval.new x y = .error "End date is before the start date" := by
  unfold DateInterval.new
  rw [if_pos (by omega)]

/-- A successful `DateInterval.new` returns exactly the given endpoints, and
they are in order. -/
theorem new_ok_inv (x y : Int) (di : DateInterval) (h : DateInterval.new x y = .ok di) :
    di = ⟨x, y⟩ ∧ x ≤ y := by
  by_cases hxy : x ≤ y
  · rw [new_ok x y hxy] at h
    injection h with h2
    exact ⟨h2.symm, hxy⟩
  · rw [new_error x y (by omega)] at h
    exact absurd h (by simp)

/-- A valid pair that does not overlap the control period is skipped by the
build loop without failing. -/
theorem buildPairs_cons_skip (cp : DateInterval) (x y : Int) (rest : List (Int × Int))
    (hxy : x ≤ y) (hov : (DateInterval.mk x y).overlaps cp = false) :
    buildPairs cp ((x, y) :: rest) = buildPairs cp rest := by
  simp only [buildPairs, new_ok x y hxy]
  cases h : buildPairs cp rest <;> simp [hov]

/-- A valid pair that overlaps the control period is clipped and kept at the
front of the build loop's output. -/
theorem buildPairs_cons_keep (cp : DateInterval) (x y : Int) (rest : List (Int × Int))
    (hxy : x ≤ y) (hov : (DateInterval.mk x y).overlaps cp = true) :
    buildPairs cp ((x, y) :: rest) =
      (buildPairs cp rest).map (fun tail => (DateInterval.mk x y).clip cp :: tail) := by
  simp only [buildPairs, new_ok x y hxy]
  cases h : buildPairs cp rest <;> simp [hov, Except.map]

/-- Any reversed pair anywhere in the list makes the build loop fail with the
interval-validation error. -/
theorem buildPairs_error_of_reversed (cp : DateInterval) :
    ∀ (l : List (Int × Int)) (x y : Int), (x, y) ∈ l → y < x →
      buildPairs cp l = .error "End date is before the start date" := by
  intro l
  induction l with
  | nil => intro x y hmem; simp at hmem
  | cons p rest ih =>
    intro x y hmem hyx
    obtain ⟨px, py⟩ := p
    by_cases hp : py < px
    · simp only [buildPairs, new_error px py hp]
    · push_neg at hp
      have hmem2 : (x, y) ∈ rest := by
        rcases List.mem_cons.mp hmem with heq | h2
        · injection heq with e1 e2
          omega
        · exact h2
      simp only [buildPairs, new_ok px py hp, ih x y hmem2 hyx]

/-- The pair formed from positions `2*i` and `2*i+1` of the date list is one
of the pairs produced by `tuples()`. -/
theorem pairTuples_getD_mem :
    ∀ (dates : List Int) (i : Nat), 2 * i + 1 < dates.length →
      (dates.getD (2 * i) 0, dates.getD (2 * i + 1) 0) ∈ pairTuples dates
  | [], _, h => by simp at h
  | [x], _, h => by simp at h
  | x :: y :: rest, 0, _ => by simp [pairTuples]
  | x :: y :: rest, i + 1, h => by
    have ih := pairTuples_getD_mem rest i (by simp at h ⊢; omega)
    have e1 : 2 * (i + 1) = 2 * i + 1 + 1 := by ring
    rw [e1, List.getD_cons_succ, List.getD_cons_succ, List.getD_cons_succ,
      List.getD_cons_succ]
    simp only [pairTuples]
    exact List.mem_cons_of_mem _ ih

/-- A reversed pair at the head of the list fails the build loop at once. -/
theorem buildPairs_cons_error (cp : DateInterval) (x y : Int) (rest : List (Int × Int))
    (hyx : y < x) :
    buildPairs cp ((x, y) :: rest) = .error "End date is before the start date" := by
  simp only [buildPairs, new_error x y hyx]

/-- The clipped version of a valid, overlapping interval lies within the
control period and is still well-ordered. -/
theorem clip_bounds (x y : Int) (cp : DateInterval) (hxy : x ≤ y) (hcp : cp.a ≤ cp.b)
    (hov : (DateInterval.mk x y).overlaps cp = true) :
    cp.a ≤ ((DateInterval.mk x y).clip cp).a ∧
      ((DateInterval.mk x y).clip cp).a ≤ ((DateInterval.mk x y).clip cp).b ∧
      ((DateInterval.mk x y).clip cp).b ≤ cp.b := by
  have h := (overlaps_iff _ _).mp hov
  simp only [DateInterval.clip, DateInterval.start_no_earlier, DateInterval.end_no_later]
  split_ifs <;> simp_all

/-- Every interval in a successful build-loop output lies within the control
period. -/
theorem buildPairs_within (cp : DateInterval) (hcp : cp.a ≤ cp.b) :
    ∀ (l : List (Int × Int)) (out : List DateInterval), buildPairs cp l = .ok out →
      ∀ di ∈ out, cp.a ≤ di.a ∧ di.a ≤ di.b ∧ di.b ≤ cp.b := by
  intro l
  induction l with
  | nil =>
    intro out hout di hmem
    injection hout with h2
    rw [← h2] at hmem
    simp at hmem
  | cons p rest ih =>
    intro out hout di hmem
    obtain ⟨px, py⟩ := p
    by_cases hpxy : px ≤ py
    · by_cases hov : (DateInterval.mk px py).overlaps cp = true
      · rw [buildPairs_cons_keep cp px py rest hpxy hov] at hout
        cases hrest : buildPairs cp rest with
        | error e => rw [hrest] at hout; exact absurd hout (by simp [Except.map])
        | ok tail =>
          rw [hrest] at hout
          simp only [Except.map] at hout
          injection hout with h2
          rw [← h2] at hmem
          rcases List.mem_cons.mp hmem with heq | htail
          · rw [heq]
            exact clip_bounds px py cp hpxy hcp hov
          · exact ih tail hrest di htail
      · have hov2 : (DateInterval.mk px py).overlaps cp = false := by
          revert hov
          cases (DateInterval.mk px py).overlaps cp <;> simp
        rw [buildPairs_cons_skip cp px py rest hpxy hov2] at hout
        exact ih out hout di hmem
    · rw [buildPairs_cons_error cp px py rest (by omega)] at hout
      exact absurd hout (by simp)

/-- Splitting `tuples()` across an even-length front part. -/
theorem pairTuples_append_even :
    ∀ (xs ys : List Int), xs.length % 2 = 0 →
      pairTuples (xs ++ ys) = pairTuples xs ++ pairTuples ys
  | [], _, _ => rfl
  | [x], _, h => by simp at h
  | x :: y :: rest, ys, h => by
    have h2 : rest.length % 2 = 0 := by simp at h; omega
    simp only [List.cons_append, pairTuples, List.append_eq]
    rw [pairTuples_append_even rest ys h2]

/-- A valid non-overlapping pair anywhere in the pair list is skipped without
changing the rest of the build. -/
theorem buildPairs_middle_skip (cp : DateInterval) (x y : Int) (hxy : x ≤ y)
    (hov : (DateInterval.mk x y).overlaps cp = false) :
    ∀ (xs ys : List (Int × Int)),
      buildPairs cp (xs ++ (x, y) :: ys) = buildPairs cp (xs ++ ys)
  | [], ys => by simpa using buildPairs_cons_skip cp x y ys hxy hov
  | (px, py) :: xs, ys => by
    simp only [List.cons_append, buildPairs, List.append_eq]
    rw [buildPairs_middle_skip cp x y hxy hov xs ys]

/-- C3: on an even-length date list, a reversed consecutive pair anywhere
makes the whole build fail with the interval-validation error (whether or not
that pair overlaps the control window), whereas a valid non-overlapping pair
is merely discarded without failing. -/
theorem reversed_pair_fails_build (dates : List Int) (cp : DateInterval)
    (heven : dates.length % 2 = 0) :
    ((∃ i, 2 * i + 1 < dates.length ∧ dates.getD (2 * i + 1) 0 < dates.getD (2 * i) 0) →
        DateIntervalVec.from_dates dates cp = .error "End date is before the start date") ∧
      (∀ (x y : Int) (rest : List (Int × Int)), x ≤ y →
        (DateInterval.mk x y).overlaps cp = false →
        buildPairs cp ((x, y) :: rest) = buildPairs cp rest) := by
  constructor
  · rintro ⟨i, hlt, hrev⟩
    have he := buildPairs_error_of_reversed cp (pairTuples dates) _ _
      (pairTuples_getD_mem dates i hlt) hrev
    simp [DateIntervalVec.from_dates, he]
  · intro x y rest hxy hov
    exact buildPairs_cons_skip cp x y rest hxy hov

/-- Witness for `reversed_pair_fails_build`: the reversed pair (3, 1) fails
the build even though it lies inside the window `[0, 10]`. -/
theorem reversed_pair_fails_build_witness :
    DateIntervalVec.from_dates [3, 1] ⟨0, 10⟩ =
      .error "End date is before the start date" :=
  (reversed_pair_fails_build [3, 1] ⟨0, 10⟩ (by decide)).1 ⟨0, by decide, by decide⟩

/-- C4: a valid stay-interval touching the control window at exactly one
shared day (`y = window.a` or `x = window.b`) overlaps the window, is kept by
the build loop, and its post-clip inclusive length is 1. -/
theorem touching_pair_kept (x y : Int) (cp : DateInterval) (rest : List (Int × Int))
    (hxy : x ≤ y) (hcp : cp.a ≤ cp.b) (htouch : y = cp.a ∨ x = cp.b) :
    (DateInterval.mk x y).overlaps cp = true ∧
      buildPairs cp ((x, y) :: rest) =
        (buildPairs cp rest).map (fun tail => (DateInterval.mk x y).clip cp :: tail) ∧
      ((DateInterval.mk x y).clip cp).abs_num_days = 1 := by
  have hov : (DateInterval.mk x y).overlaps cp = true := by
    rw [overlaps_iff]
    show x ≤ cp.b ∧ cp.a ≤ y
    omega
  refine ⟨hov, buildPairs_cons_keep cp x y rest hxy hov, ?_⟩
  simp only [DateInterval.clip, DateInterval.start_no_earlier, DateInterval.end_no_later,
    DateInterval.abs_num_days]
  split_ifs <;> simp_all <;> omega

/-- Witness for `touching_pair_kept`: the stay `[-3, 0]` touches the window
`[0, 5]` at day 0 only, is kept, and clips to length 1. -/
theorem touching_pair_kept_witness :
    (DateInterval.mk (-3) 0).overlaps ⟨0, 5⟩ = true ∧
      buildPairs ⟨0, 5⟩ [((-3 : Int), (0 : Int))] =
        (buildPairs ⟨0, 5⟩ []).map (fun tail => (DateInterval.mk (-3) 0).clip ⟨0, 5⟩ :: tail) ∧
      ((DateInterval.mk (-3) 0).clip ⟨0, 5⟩).abs_num_days = 1 :=
  touching_pair_kept (-3) 0 ⟨0, 5⟩ [] (by decide) (by decide) (Or.inl (by decide))

/-- C5: a valid stay-interval lying entirely outside the control window
(before it or after it) is excluded from the build output and contributes
nothing to the spent-day total. -/
theorem outside_pair_excluded (x y : Int) (cp : DateInterval) (xs ys : List Int)
    (heven : xs.length % 2 = 0) (hxy : x ≤ y) (hout : y < cp.a ∨ cp.b < x) :
    DateIntervalVec.from_dates (xs ++ x :: y :: ys) cp =
        DateIntervalVec.from_dates (xs ++ ys) cp ∧
      (DateIntervalVec.from_dates (xs ++ x :: y :: ys) cp).map DateIntervalVec.num_spent_days =
        (DateIntervalVec.from_dates (xs ++ ys) cp).map DateIntervalVec.num_spent_days := by
  have hov : (DateInterval.mk x y).overlaps cp = false := by
    cases hq : (DateInterval.mk x y).overlaps cp
    · rfl
    · have h2 : x ≤ cp.b ∧ cp.a ≤ y := (overlaps_iff _ _).mp hq
      exfalso
      omega
  have key : DateIntervalVec.from_dates (xs ++ x :: y :: ys) cp =
      DateIntervalVec.from_dates (xs ++ ys) cp := by
    unfold DateIntervalVec.from_dates
    rw [pairTuples_append_even xs (x :: y :: ys) heven,
      pairTuples_append_even xs ys heven]
    simp only [pairTuples]
    rw [buildPairs_middle_skip cp x y hxy hov (pairTuples xs) (pairTuples ys)]
  exact ⟨key, by rw [key]⟩

/-- Witness for `outside_pair_excluded`: the stay `[1, 2]` lies entirely
before the window `[5, 10]` and is excluded. -/
theorem outside_pair_excluded_witness :
    DateIntervalVec.from_dates ([] ++ (1 : Int) :: (2 : Int) :: []) ⟨5, 10⟩ =
        DateIntervalVec.from_dates ([] ++ []) ⟨5, 10⟩ ∧
      (DateIntervalVec.from_dates ([] ++ (1 : Int) :: (2 : Int) :: []) ⟨5, 10⟩).map
          DateIntervalVec.num_spent_days =
        (DateIntervalVec.from_dates ([] ++ []) ⟨5, 10⟩).map DateIntervalVec.num_spent_days :=
  outside_pair_excluded 1 2 ⟨5, 10⟩ [] [] (by decide) (by decide) (Or.inl (by decide))

/-- C6: every interval in a successful build output lies entirely within the
control window, and is still well-ordered after clipping. -/
theorem kept_intervals_within_window (dates : List Int) (cp : DateInterval)
    (v : DateIntervalVec) (hcp : cp.a ≤ cp.b)
    (hok : DateIntervalVec.from_dates dates cp = .ok v) :
    ∀ di ∈ v.intervals, cp.a ≤ di.a ∧ di.a ≤ di.b ∧ di.b ≤ cp.b := by
  intro di hmem
  unfold DateIntervalVec.from_dates at hok
  cases hb : buildPairs cp (pairTuples dates) with
  | error e => rw [hb] at hok; exact absurd hok (by simp)
  | ok l =>
    rw [hb] at hok
    injection hok with h2
    rw [← h2] at hmem
    exact buildPairs_within cp hcp (pairTuples dates) l hb di hmem

/-- Witness for `kept_intervals_within_window`: the stay `[1, 2]` kept from
the window `[0, 10]` lies within it. -/
theorem kept_intervals_within_window_witness :
    (DateInterval.mk 0 10).a ≤ (DateInterval.mk 1 2).a ∧
      (DateInterval.mk 1 2).a ≤ (DateInterval.mk 1 2).b ∧
      (DateInterval.mk 1 2).b ≤ (DateInterval.mk 0 10).b :=
  kept_intervals_within_window [1, 2] ⟨0, 10⟩ ⟨[⟨1, 2⟩]⟩ (by decide) (by rfl)
    ⟨1, 2⟩ (by simp)
